import Mathlib

/-!
Verification of the photoperiod engine of fotoperiodo-app (src/src/App.jsx).

JavaScript numbers are modelled as rationals (ℚ): on the inputs the claims
quantify over, the arithmetic the engine performs (addition, subtraction,
multiplication, division, the remainder operator `%`, `Math.floor`, and
comparisons) is exact, and every definition below is executable.  The
JavaScript remainder `a % b` is truncated division (the result carries the
dividend's sign); `Math.floor` is `Int.floor`.  An instant is a rational
number of hours measured from a fixed local midnight, so that
`Date.prototype.getHours()` is the integer part of the instant's floored
remainder by 24 and `d.setHours(0,0,0,0)` rounds the instant down to a
multiple of 24; `(now.getTime() - startDateObj.getTime()) / 3600000` is the
plain difference of two instants.

App.jsx holds two revisions of the component separated by a document marker.
The definitions below follow the first revision (lines 97-610); the second
revision (lines 610 on) differs only, for the claims at hand, in how it picks
the highlighted "current" calendar cell, and those two index computations are
embedded separately as `currentHourIndexV2` / `currentDayIndex24hV2`.
-/

/-- JavaScript truncation toward zero: the integer quotient the remainder
operator `%` divides out (`Math.trunc(a / b)`). -/
def jsTrunc (q : ℚ) : ℤ := if 0 ≤ q then ⌊q⌋ else ⌈q⌉

/-- The JavaScript remainder `a % b`: truncated division, so the result has
the dividend's sign.  (`b = 0` gives NaN in JavaScript; every use below has a
positive `b`, see `cycleLength_pos`.) -/
def jsMod (a b : ℚ) : ℚ := a - b * jsTrunc (a / b)

/-- The `((x % c) + c) % c` pattern App.jsx repeats in `currentInCycle`
(line 194), `isLightAtAbsoluteHours` (line 210) and `currentHourIndex`
(line 205). -/
def jsMod2 (x c : ℚ) : ℚ := jsMod (jsMod x c + c) c

/-- `cycleLength` (App.jsx lines 180-183):
`sum > 0 ? sum : 0.0000001 // avoid zero division`. -/
def cycleLength (hoursLight hoursDark : ℚ) : ℚ :=
  if hoursLight + hoursDark > 0 then hoursLight + hoursDark else 0.0000001

/-- `currentInCycle` (App.jsx lines 193-195):
`((hoursSinceStartNow % cycleLength) + cycleLength) % cycleLength`. -/
def currentInCycle (hoursLight hoursDark hoursSinceStartNow : ℚ) : ℚ :=
  jsMod2 hoursSinceStartNow (cycleLength hoursLight hoursDark)

/-- `isNowLight` (App.jsx lines 197-199): `currentInCycle < Number(hoursLight)`. -/
def isNowLight (hoursLight hoursDark hoursSinceStartNow : ℚ) : Bool :=
  decide (currentInCycle hoursLight hoursDark hoursSinceStartNow < hoursLight)

/-- `isLightAtAbsoluteHours` (App.jsx lines 209-212): the pure phase query
`((hoursSinceStart % cycleLength) + cycleLength) % cycleLength < hoursLight`. -/
def isLightAtAbsoluteHours (hoursLight hoursDark hoursSinceStart : ℚ) : Bool :=
  decide (jsMod2 hoursSinceStart (cycleLength hoursLight hoursDark) < hoursLight)

/-- `currentHourIndex` of the first revision (App.jsx line 205):
`Math.floor(((hoursSinceStartNow % 24) + 24) % 24)`. -/
def currentHourIndex (hoursSinceStartNow : ℚ) : ℤ := ⌊jsMod2 hoursSinceStartNow 24⌋

/-- `currentDayIndex24h` of the first revision (App.jsx line 206):
`Math.floor(hoursSinceStartNow / 24)`. -/
def currentDayIndex24h (hoursSinceStartNow : ℚ) : ℤ := ⌊hoursSinceStartNow / 24⌋

/-- The calendar grid (App.jsx lines 238-250).  `durationDays` is the raw
state value: `none` models a non-numeric entry (`Number(...)` gives NaN, and
`NaN || 0` is `0`), `some n` a numeric one, so `Number(durationDays) || 0`
is `durationDays.getD 0`.  `clamp(n, 1, 9999)` is
`Math.max(1, Math.min(9999, n))`.  Each cell `(d, h)` holds
`isLightAtAbsoluteHours(d * 24 + h - fractionalStartOffset)`. -/
def calendar (hoursLight hoursDark fractionalStartOffset : ℚ)
    (durationDays : Option ℤ) : List (List Bool) :=
  let days : ℤ := max 1 (min 9999 (durationDays.getD 0))
  (List.range days.toNat).map fun d : ℕ =>
    (List.range 24).map fun h : ℕ =>
      isLightAtAbsoluteHours hoursLight hoursDark
        ((d : ℚ) * 24 + (h : ℚ) - fractionalStartOffset)

/-- The fields of `nextChangeEvent` the claims are about: `hoursToNext` and
the phase of the announced next state (`nextState === 'Luz'`). -/
structure NextChange where
  hoursToNext : ℚ
  nextStateLight : Bool

/-- `nextChangeEvent` (App.jsx lines 352-371).  In the light phase the next
state is `'Oscuridad'` and `hoursToNext = hoursLight - currentInCycle`; in
the dark phase the next state is `'Luz'` and
`hoursToNext = cycleLength - currentInCycle`; a non-finite or negative value
is replaced by `0` (over ℚ every value is finite, so only the `< 0` test of
`!Number.isFinite(hoursToNext) || hoursToNext < 0` remains). -/
def nextChangeEvent (hoursLight hoursDark hoursSinceStartNow : ℚ) : NextChange :=
  let raw :=
    if isNowLight hoursLight hoursDark hoursSinceStartNow then
      hoursLight - currentInCycle hoursLight hoursDark hoursSinceStartNow
    else
      cycleLength hoursLight hoursDark -
        currentInCycle hoursLight hoursDark hoursSinceStartNow
  { hoursToNext := if raw < 0 then 0 else raw,
    nextStateLight := !isNowLight hoursLight hoursDark hoursSinceStartNow }

/-- The numeric checks of `validateInputs` (App.jsx lines 162-171).
`startDateOk` stands for the date checks (non-empty string, parsable date),
which concern string parsing and are outside the numeric model; over ℚ the
`Number.isFinite` tests always pass, leaving `hoursLight ≥ 0`,
`hoursDark ≥ 0` and `durationDays ≥ 1`. -/
def validateInputs (startDateOk : Bool) (hoursLight hoursDark durationDays : ℚ) : Bool :=
  startDateOk && decide (0 ≤ hoursLight) && decide (0 ≤ hoursDark) &&
    decide (1 ≤ durationDays)

/-- Model of `now.getHours()` for an instant measured in hours from a local
midnight: the integer wall-clock hour, in `[0, 23]`. -/
def getHoursOf (t : ℚ) : ℤ := ⌊jsMod2 t 24⌋

/-- Model of `d.setHours(0,0,0,0)`: the local midnight of the instant's day. -/
def midnightOf (t : ℚ) : ℚ := 24 * ⌊t / 24⌋

/-- `currentHourIndex` of the second revision (App.jsx line 726):
`now.getHours()`. -/
def currentHourIndexV2 (now : ℚ) : ℤ := getHoursOf now

/-- `currentDayIndex24h` of the second revision (App.jsx lines 727-736):
`Math.floor((startOfDayNow - startOfDayStart) / (24 hours))` where both
instants are rounded down to their local midnight. -/
def currentDayIndex24hV2 (startT now : ℚ) : ℤ :=
  ⌊(midnightOf now - midnightOf startT) / 24⌋

lemma jsTrunc_of_nonneg {q : ℚ} (h : 0 ≤ q) : jsTrunc q = ⌊q⌋ := if_pos h

lemma neg_lt_jsMod {a c : ℚ} (hc : 0 < c) : -c < jsMod a c := by
  have hca : a / c * c = a := div_mul_cancel₀ a hc.ne'
  unfold jsMod jsTrunc
  rcases le_or_lt 0 (a / c) with h | h
  · rw [if_pos h]
    have h1 : ((⌊a / c⌋ : ℚ)) ≤ a / c := Int.floor_le _
    nlinarith
  · rw [if_neg (not_le.mpr h)]
    have h1 : ((⌈a / c⌉ : ℚ)) < a / c + 1 := Int.ceil_lt_add_one _
    nlinarith

/-- For a positive modulus the double remainder is the floored remainder:
`c` times the fractional part of `x / c`. -/
lemma jsMod2_eq (x c : ℚ) (hc : 0 < c) : jsMod2 x c = c * Int.fract (x / c) := by
  have hc' : c ≠ 0 := hc.ne'
  have hca : x / c * c = x := div_mul_cancel₀ x hc'
  have hrneg : -c < jsMod x c := neg_lt_jsMod hc
  have hstep : jsMod x c = x - c * (jsTrunc (x / c) : ℚ) := rfl
  have h3 : 0 ≤ (jsMod x c + c) / c := (div_pos (by linarith) hc).le
  have h2 : (jsMod x c + c) / c = x / c + ((1 - jsTrunc (x / c) : ℤ) : ℚ) := by
    rw [hstep]
    push_cast
    field_simp
    ring
  show jsMod (jsMod x c + c) c = c * Int.fract (x / c)
  rw [jsMod, jsTrunc_of_nonneg h3, h2, Int.floor_add_int, Int.fract]
  rw [hstep]
  push_cast
  nlinarith [hca]

lemma jsMod2_nonneg (x c : ℚ) (hc : 0 < c) : 0 ≤ jsMod2 x c := by
  rw [jsMod2_eq x c hc]
  exact mul_nonneg hc.le (Int.fract_nonneg _)

lemma jsMod2_lt (x c : ℚ) (hc : 0 < c) : jsMod2 x c < c := by
  rw [jsMod2_eq x c hc]
  nlinarith [Int.fract_lt_one (x / c), Int.fract_nonneg (x / c)]

/-- Periodicity: adding an integer number of periods does not change the
floored remainder. -/
lemma jsMod2_add_int_mul (x c : ℚ) (k : ℤ) (hc : 0 < c) :
    jsMod2 (x + c * k) c = jsMod2 x c := by
  rw [jsMod2_eq _ c hc, jsMod2_eq x c hc]
  congr 1
  have h : (x + c * k) / c = x / c + (k : ℚ) := by
    field_simp
    ring
  rw [h, Int.fract_add_int]

lemma jsMod2_eq_self {x c : ℚ} (hc : 0 < c) (h0 : 0 ≤ x) (h1 : x < c) :
    jsMod2 x c = x := by
  rw [jsMod2_eq x c hc]
  have h : Int.fract (x / c) = x / c :=
    Int.fract_eq_self.mpr ⟨div_nonneg h0 hc.le, (div_lt_one hc).mpr h1⟩
  rw [h, mul_comm, div_mul_cancel₀ x hc.ne']

/-- Evaluation rule for concrete inputs: if `x = r + c * k` with
`0 ≤ r < c` then the double remainder of `x` is `r`. -/
lemma jsMod2_eval {x c r : ℚ} (k : ℤ) (hc : 0 < c) (hx : x = r + c * k)
    (h0 : 0 ≤ r) (h1 : r < c) : jsMod2 x c = r := by
  rw [hx, jsMod2_add_int_mul r c k hc, jsMod2_eq_self hc h0 h1]

/-- The remainder differs from the dividend by a whole number of periods. -/
lemma jsMod2_sub (x c : ℚ) (hc : 0 < c) : x - jsMod2 x c = c * ⌊x / c⌋ := by
  rw [jsMod2_eq x c hc, Int.fract, mul_sub, mul_comm c (x / c),
    div_mul_cancel₀ x hc.ne']
  ring

lemma jsMod2_intCast24 (n : ℤ) : jsMod2 (n : ℚ) 24 = ((n % 24 : ℤ) : ℚ) := by
  have h24 : (0 : ℚ) < 24 := by norm_num
  have hn : (n : ℚ) = ((n % 24 : ℤ) : ℚ) + 24 * ((n / 24 : ℤ) : ℚ) := by
    have h := congrArg (fun z : ℤ => (z : ℚ)) (Int.ediv_add_emod n 24)
    push_cast at h
    linarith
  rw [hn, jsMod2_add_int_mul _ 24 _ h24]
  refine jsMod2_eq_self h24 ?_ ?_
  · exact_mod_cast Int.emod_nonneg n (by norm_num)
  · exact_mod_cast Int.emod_lt_of_pos n (by norm_num)

lemma floor_intCast_div24 (n : ℤ) : ⌊(n : ℚ) / 24⌋ = n / 24 := by
  have h : ((24 : ℕ) : ℚ) = 24 := by norm_num
  rw [← h, Rat.floor_intCast_div_natCast]
  norm_num

lemma cycleLength_pos (hoursLight hoursDark : ℚ) :
    0 < cycleLength hoursLight hoursDark := by
  unfold cycleLength
  split
  · assumption
  · norm_num

lemma cycleLength_of_pos {hoursLight hoursDark : ℚ} (h : 0 < hoursLight + hoursDark) :
    cycleLength hoursLight hoursDark = hoursLight + hoursDark := if_pos h

/-- Looking a mapped range up at an index below the bound gives the mapped
value. -/
lemma getD_range_map {α : Type} (f : ℕ → α) {n i : ℕ} (h : i < n) (d : α) :
    ((List.range n).map f).getD i d = f i := by
  have hlen : i < ((List.range n).map f).length := by simpa using h
  rw [List.getD_eq_getElem _ _ hlen]
  simp

/-- Claim C4: for every hours-since-start `x` and every positive cycle
length `c`, the phase offset `((x % c) + c) % c` lies in `[0, c)`; in
particular a negative `x` never yields a negative offset.  (The witness
instantiates the spec's concrete scenario: `x = -5`, `c = 20`.) -/
theorem phase_offset_range (x c : ℚ) (hc : 0 < c) :
    0 ≤ jsMod2 x c ∧ jsMod2 x c < c :=
  ⟨jsMod2_nonneg x c hc, jsMod2_lt x c hc⟩

/-- Witness for C4 at the spec's concrete scenario 4: `x = -5`,
`cycleLength = 20` gives offset `15`, and with `lightHours = 10` the phase
is dark. -/
theorem phase_offset_range_witness :
    (0 ≤ jsMod2 (-5) 20 ∧ jsMod2 (-5) 20 < 20) ∧
    jsMod2 (-5) 20 = 15 ∧ isLightAtAbsoluteHours 10 10 (-5) = false := by
  refine ⟨phase_offset_range (-5) 20 (by norm_num), ?_, ?_⟩
  · exact jsMod2_eval (-1) (by norm_num) (by norm_num) (by norm_num) (by norm_num)
  · have hcyc : cycleLength 10 10 = 20 :=
      (cycleLength_of_pos (by norm_num)).trans (by norm_num)
    have h15 : jsMod2 (-5) 20 = 15 :=
      jsMod2_eval (-1) (by norm_num) (by norm_num) (by norm_num) (by norm_num)
    simp only [isLightAtAbsoluteHours, hcyc, h15]
    norm_num

/-- Claim C5: `isLightAtAbsoluteHours` holds exactly when the phase offset is
strictly below `hoursLight`, so the light phase occupies `[0, hoursLight)`
and the dark phase `[hoursLight, cycleLength)` of every cycle.  (The witness
covers the boundary scenario `lightHours = 13`, `darkHours = 14`, offset
exactly `13`: dark.) -/
theorem light_interval_half_open (hoursLight hoursDark x : ℚ)
    (hL0 : 0 ≤ hoursLight) (hD0 : 0 ≤ hoursDark) :
    (isLightAtAbsoluteHours hoursLight hoursDark x = true ↔
      0 ≤ currentInCycle hoursLight hoursDark x ∧
        currentInCycle hoursLight hoursDark x < hoursLight) ∧
    (isLightAtAbsoluteHours hoursLight hoursDark x = false ↔
      hoursLight ≤ currentInCycle hoursLight hoursDark x ∧
        currentInCycle hoursLight hoursDark x < cycleLength hoursLight hoursDark) := by
  have hc : 0 < cycleLength hoursLight hoursDark := cycleLength_pos hoursLight hoursDark
  have h0 : 0 ≤ jsMod2 x (cycleLength hoursLight hoursDark) := jsMod2_nonneg _ _ hc
  have h1 : jsMod2 x (cycleLength hoursLight hoursDark) < cycleLength hoursLight hoursDark :=
    jsMod2_lt _ _ hc
  simp only [isLightAtAbsoluteHours, currentInCycle, decide_eq_true_eq,
    decide_eq_false_iff_not, not_lt]
  exact ⟨⟨fun h => ⟨h0, h⟩, And.right⟩, ⟨fun h => ⟨h, h1⟩, And.left⟩⟩

/-- Witness for C5 at the spec's concrete scenario 2: `lightHours = 13`,
`darkHours = 14`, offset exactly `13` is dark (the light interval is
half-open). -/
theorem light_interval_half_open_witness :
    ((isLightAtAbsoluteHours 13 14 13 = true ↔
      0 ≤ currentInCycle 13 14 13 ∧ currentInCycle 13 14 13 < 13) ∧
    (isLightAtAbsoluteHours 13 14 13 = false ↔
      13 ≤ currentInCycle 13 14 13 ∧ currentInCycle 13 14 13 < cycleLength 13 14)) ∧
    isLightAtAbsoluteHours 13 14 13 = false := by
  refine ⟨light_interval_half_open 13 14 13 (by norm_num) (by norm_num), ?_⟩
  have hcyc : cycleLength 13 14 = 27 :=
    (cycleLength_of_pos (by norm_num)).trans (by norm_num)
  have h13 : jsMod2 (13 : ℚ) 27 = 13 := jsMod2_eq_self (by norm_num) (by norm_num) (by norm_num)
  simp only [isLightAtAbsoluteHours, hcyc, h13]
  norm_num

/-- Claim C6: the degenerate phases.  The cycle length is positive even in
the degenerate configurations (the guard runs before the remainder is
taken), and: `hoursLight = 0` (with `hoursDark > 0`) makes every instant
dark, `hoursDark = 0` (with `hoursLight > 0`) makes every instant light. -/
theorem degenerate_phases (hoursLight hoursDark x : ℚ) :
    0 < cycleLength hoursLight hoursDark ∧
    (hoursLight = 0 → 0 < hoursDark →
      isLightAtAbsoluteHours hoursLight hoursDark x = false) ∧
    (hoursDark = 0 → 0 < hoursLight →
      isLightAtAbsoluteHours hoursLight hoursDark x = true) := by
  have hc : 0 < cycleLength hoursLight hoursDark := cycleLength_pos hoursLight hoursDark
  refine ⟨hc, fun hL hD => ?_, fun hD hL => ?_⟩
  · have h0 : 0 ≤ jsMod2 x (cycleLength hoursLight hoursDark) := jsMod2_nonneg _ _ hc
    simp only [isLightAtAbsoluteHours, hL, decide_eq_false_iff_not, not_lt]
    rw [hL] at h0
    exact h0
  · have hcyc : cycleLength hoursLight hoursDark = hoursLight := by
      rw [cycleLength_of_pos (by rw [hD]; simpa using hL), hD, add_zero]
    have h1 := jsMod2_lt x (cycleLength hoursLight hoursDark) hc
    rw [hcyc] at h1
    simp only [isLightAtAbsoluteHours, decide_eq_true_eq, hcyc]
    exact h1

/-- Witness for C6 at the spec's concrete scenario 3 (and its dual):
`lightHours = 0, darkHours = 24` is dark at `x = -100`, and
`lightHours = 24, darkHours = 0` is light at `x = 100`. -/
theorem degenerate_phases_witness :
    isLightAtAbsoluteHours 0 24 (-100) = false ∧
    isLightAtAbsoluteHours 24 0 100 = true :=
  ⟨(degenerate_phases 0 24 (-100)).2.1 rfl (by norm_num),
   (degenerate_phases 24 0 100).2.2 rfl (by norm_num)⟩

/-- Claim C7: the zero-cycle guard keeps the engine total.  For finite
non-negative hour inputs the cycle length used by the engine is strictly
positive - the sum when it is positive, the minimal epsilon `0.0000001`
otherwise - so the remainder is never taken by zero and every phase query
yields a defined offset in `[0, cycleLength)`. -/
theorem cycleLength_total_guard (hoursLight hoursDark x : ℚ)
    (hL0 : 0 ≤ hoursLight) (hD0 : 0 ≤ hoursDark) :
    0 < cycleLength hoursLight hoursDark ∧
    (0 < hoursLight + hoursDark →
      cycleLength hoursLight hoursDark = hoursLight + hoursDark) ∧
    (hoursLight + hoursDark = 0 →
      cycleLength hoursLight hoursDark = 0.0000001) ∧
    0 ≤ currentInCycle hoursLight hoursDark x ∧
    currentInCycle hoursLight hoursDark x < cycleLength hoursLight hoursDark := by
  have hc : 0 < cycleLength hoursLight hoursDark := cycleLength_pos hoursLight hoursDark
  refine ⟨hc, fun h => cycleLength_of_pos h, fun h => ?_, jsMod2_nonneg _ _ hc,
    jsMod2_lt _ _ hc⟩
  unfold cycleLength
  rw [if_neg (by rw [h]; exact lt_irrefl 0)]

/-- Witness for C7 at the all-zero configuration `hoursLight = hoursDark = 0`
and `x = 5`: the epsilon guard fires and the offset is still well defined. -/
theorem cycleLength_total_guard_witness :
    0 < cycleLength 0 0 ∧
    (0 < (0 : ℚ) + 0 → cycleLength 0 0 = 0 + 0) ∧
    ((0 : ℚ) + 0 = 0 → cycleLength 0 0 = 0.0000001) ∧
    0 ≤ currentInCycle 0 0 5 ∧ currentInCycle 0 0 5 < cycleLength 0 0 :=
  cycleLength_total_guard 0 0 5 (by norm_num) (by norm_num)

lemma isNowLight_true_iff {hoursLight hoursDark x : ℚ} :
    isNowLight hoursLight hoursDark x = true ↔
      currentInCycle hoursLight hoursDark x < hoursLight := by
  simp [isNowLight]

lemma isNowLight_false_iff {hoursLight hoursDark x : ℚ} :
    isNowLight hoursLight hoursDark x = false ↔
      hoursLight ≤ currentInCycle hoursLight hoursDark x := by
  simp [isNowLight]

/-- In the light phase the clamp of `nextChangeEvent` is inactive and the
event is a switch to dark after `hoursLight - currentInCycle` hours. -/
lemma nextChangeEvent_light {hoursLight hoursDark x : ℚ}
    (h : currentInCycle hoursLight hoursDark x < hoursLight) :
    nextChangeEvent hoursLight hoursDark x =
      ⟨hoursLight - currentInCycle hoursLight hoursDark x, false⟩ := by
  have hb : isNowLight hoursLight hoursDark x = true := isNowLight_true_iff.mpr h
  have hraw : ¬ (hoursLight - currentInCycle hoursLight hoursDark x < 0) := by linarith
  simp [nextChangeEvent, hb, hraw]

/-- In the dark phase the clamp of `nextChangeEvent` is inactive and the
event is a switch to light after `cycleLength - currentInCycle` hours. -/
lemma nextChangeEvent_dark {hoursLight hoursDark x : ℚ}
    (h : hoursLight ≤ currentInCycle hoursLight hoursDark x) :
    nextChangeEvent hoursLight hoursDark x =
      ⟨cycleLength hoursLight hoursDark - currentInCycle hoursLight hoursDark x,
        true⟩ := by
  have hb : isNowLight hoursLight hoursDark x = false := isNowLight_false_iff.mpr h
  have hcic : currentInCycle hoursLight hoursDark x < cycleLength hoursLight hoursDark :=
    jsMod2_lt _ _ (cycleLength_pos hoursLight hoursDark)
  have hraw :
      ¬ (cycleLength hoursLight hoursDark - currentInCycle hoursLight hoursDark x < 0) := by
    linarith
  simp [nextChangeEvent, hb, hraw]

/-- Claim C2: the next-transition contract.  For every valid configuration
and every now, the announced `hoursToNext` is non-negative (the clamp turns
a negative intermediate value into `0` instead of erroring), and: in the
light phase the target is dark with
`hoursToNext = hoursLight - currentInCycle`, in the dark phase the target is
light with `hoursToNext = cycleLength - currentInCycle`. -/
theorem nextChangeEvent_contract (hoursLight hoursDark x : ℚ)
    (hL0 : 0 ≤ hoursLight) (hD0 : 0 ≤ hoursDark) :
    0 ≤ (nextChangeEvent hoursLight hoursDark x).hoursToNext ∧
    (isNowLight hoursLight hoursDark x = true →
      (nextChangeEvent hoursLight hoursDark x).nextStateLight = false ∧
      (nextChangeEvent hoursLight hoursDark x).hoursToNext =
        hoursLight - currentInCycle hoursLight hoursDark x) ∧
    (isNowLight hoursLight hoursDark x = false →
      (nextChangeEvent hoursLight hoursDark x).nextStateLight = true ∧
      (nextChangeEvent hoursLight hoursDark x).hoursToNext =
        cycleLength hoursLight hoursDark - currentInCycle hoursLight hoursDark x) := by
  rcases lt_or_le (currentInCycle hoursLight hoursDark x) hoursLight with h | h
  · rw [nextChangeEvent_light h]
    refine ⟨by simpa using h.le, fun _ => ⟨rfl, rfl⟩, fun hf => absurd hf ?_⟩
    · simp [isNowLight_true_iff.mpr h]
  · rw [nextChangeEvent_dark h]
    have hcic : currentInCycle hoursLight hoursDark x < cycleLength hoursLight hoursDark :=
      jsMod2_lt _ _ (cycleLength_pos hoursLight hoursDark)
    refine ⟨by simpa using hcic.le, fun ht => absurd ht ?_, fun _ => ⟨rfl, rfl⟩⟩
    · simp [isNowLight_false_iff.mpr h]

/-- Witness for C2 at `hoursLight = 13`, `hoursDark = 14`, `x = 5` (light
phase, five hours in). -/
theorem nextChangeEvent_contract_witness :
    0 ≤ (nextChangeEvent 13 14 5).hoursToNext ∧
    (isNowLight 13 14 5 = true →
      (nextChangeEvent 13 14 5).nextStateLight = false ∧
      (nextChangeEvent 13 14 5).hoursToNext = 13 - currentInCycle 13 14 5) ∧
    (isNowLight 13 14 5 = false →
      (nextChangeEvent 13 14 5).nextStateLight = true ∧
      (nextChangeEvent 13 14 5).hoursToNext =
        cycleLength 13 14 - currentInCycle 13 14 5) :=
  nextChangeEvent_contract 13 14 5 (by norm_num) (by norm_num)

/-- Phase shift helper: the offset of `x + delta` is `jsMod2 (cic + delta)`
where `cic` is the offset of `x`. -/
lemma currentInCycle_add {hoursLight hoursDark : ℚ} (x delta : ℚ) :
    currentInCycle hoursLight hoursDark (x + delta) =
      jsMod2 (currentInCycle hoursLight hoursDark x + delta)
        (cycleLength hoursLight hoursDark) := by
  have hc : 0 < cycleLength hoursLight hoursDark := cycleLength_pos hoursLight hoursDark
  have hsub := jsMod2_sub x (cycleLength hoursLight hoursDark) hc
  have hx : x + delta =
      (currentInCycle hoursLight hoursDark x + delta) +
        cycleLength hoursLight hoursDark * (⌊x / cycleLength hoursLight hoursDark⌋ : ℤ) := by
    unfold currentInCycle
    linarith
  unfold currentInCycle
  rw [hx, jsMod2_add_int_mul _ _ _ hc]
  rfl

/-- Claim C3, amended: for a configuration with both phases of positive
length, `hoursToNext` is non-negative and, for every `ε` smaller than both
phase lengths, the phase at `x + hoursToNext + ε` is the opposite of the
phase at `x`.  (The un-amended claim also ranges over the degenerate
configurations with one phase of length zero; see the counterexample.) -/
theorem nextTransition_opposite_phase (hoursLight hoursDark x ε : ℚ)
    (hL0 : 0 < hoursLight) (hD0 : 0 < hoursDark)
    (hε0 : 0 < ε) (hεL : ε < hoursLight) (hεD : ε < hoursDark) :
    0 ≤ (nextChangeEvent hoursLight hoursDark x).hoursToNext ∧
    isLightAtAbsoluteHours hoursLight hoursDark
        (x + (nextChangeEvent hoursLight hoursDark x).hoursToNext + ε) =
      !isNowLight hoursLight hoursDark x := by
  have hsum : 0 < hoursLight + hoursDark := by linarith
  have hcyc : cycleLength hoursLight hoursDark = hoursLight + hoursDark :=
    cycleLength_of_pos hsum
  have hc : 0 < cycleLength hoursLight hoursDark := cycleLength_pos hoursLight hoursDark
  have hlt : isLightAtAbsoluteHours hoursLight hoursDark
      (x + (nextChangeEvent hoursLight hoursDark x).hoursToNext + ε) =
      decide (currentInCycle hoursLight hoursDark
        (x + ((nextChangeEvent hoursLight hoursDark x).hoursToNext + ε)) < hoursLight) := by
    simp [isLightAtAbsoluteHours, currentInCycle, add_assoc]
  rcases lt_or_le (currentInCycle hoursLight hoursDark x) hoursLight with h | h
  · rw [nextChangeEvent_light h]
    have hoff : currentInCycle hoursLight hoursDark
        (x + ((hoursLight - currentInCycle hoursLight hoursDark x) + ε)) =
        hoursLight + ε := by
      rw [currentInCycle_add]
      have harg : currentInCycle hoursLight hoursDark x +
          ((hoursLight - currentInCycle hoursLight hoursDark x) + ε) = hoursLight + ε := by
        ring
      rw [harg]
      refine jsMod2_eq_self hc (by linarith) (by rw [hcyc]; linarith)
    constructor
    · show 0 ≤ hoursLight - currentInCycle hoursLight hoursDark x
      linarith
    · rw [isNowLight_true_iff.mpr h]
      show isLightAtAbsoluteHours hoursLight hoursDark
        (x + (hoursLight - currentInCycle hoursLight hoursDark x) + ε) = false
      have hre : x + (hoursLight - currentInCycle hoursLight hoursDark x) + ε =
          x + ((hoursLight - currentInCycle hoursLight hoursDark x) + ε) := by ring
      simp only [isLightAtAbsoluteHours, hre]
      rw [show jsMod2 (x + ((hoursLight - currentInCycle hoursLight hoursDark x) + ε))
            (cycleLength hoursLight hoursDark) =
          currentInCycle hoursLight hoursDark
            (x + ((hoursLight - currentInCycle hoursLight hoursDark x) + ε)) from rfl,
        hoff]
      simp
      linarith
  · rw [nextChangeEvent_dark h]
    have hcic : currentInCycle hoursLight hoursDark x < cycleLength hoursLight hoursDark :=
      jsMod2_lt _ _ hc
    have hoff : currentInCycle hoursLight hoursDark
        (x + ((cycleLength hoursLight hoursDark -
          currentInCycle hoursLight hoursDark x) + ε)) = ε := by
      rw [currentInCycle_add]
      have harg : currentInCycle hoursLight hoursDark x +
          ((cycleLength hoursLight hoursDark - currentInCycle hoursLight hoursDark x) + ε) =
          ε + cycleLength hoursLight hoursDark * ((1 : ℤ) : ℚ) := by
        push_cast
        ring
      rw [harg, jsMod2_add_int_mul _ _ _ hc]
      refine jsMod2_eq_self hc hε0.le (by rw [hcyc]; linarith)
    constructor
    · show 0 ≤ cycleLength hoursLight hoursDark - currentInCycle hoursLight hoursDark x
      linarith
    · rw [isNowLight_false_iff.mpr h]
      show isLightAtAbsoluteHours hoursLight hoursDark
        (x + (cycleLength hoursLight hoursDark -
          currentInCycle hoursLight hoursDark x) + ε) = true
      have hre : x + (cycleLength hoursLight hoursDark -
            currentInCycle hoursLight hoursDark x) + ε =
          x + ((cycleLength hoursLight hoursDark -
            currentInCycle hoursLight hoursDark x) + ε) := by ring
      simp only [isLightAtAbsoluteHours, hre]
      rw [show jsMod2 (x + ((cycleLength hoursLight hoursDark -
              currentInCycle hoursLight hoursDark x) + ε))
            (cycleLength hoursLight hoursDark) =
          currentInCycle hoursLight hoursDark
            (x + ((cycleLength hoursLight hoursDark -
              currentInCycle hoursLight hoursDark x) + ε)) from rfl,
        hoff]
      simp
      linarith

/-- Witness for the amended C3 at `hoursLight = 13`, `hoursDark = 14`,
`x = 5`, `ε = 1`. -/
theorem nextTransition_opposite_phase_witness :
    0 ≤ (nextChangeEvent 13 14 5).hoursToNext ∧
    isLightAtAbsoluteHours 13 14 (5 + (nextChangeEvent 13 14 5).hoursToNext + 1) =
      !isNowLight 13 14 5 :=
  nextTransition_opposite_phase 13 14 5 1 (by norm_num) (by norm_num) (by norm_num)
    (by norm_num) (by norm_num)

/-- Counterexample to C3 as stated: in the valid degenerate configuration
`hoursLight = 24`, `hoursDark = 0` (always light) at `x = 0`, no positive
`ε` below any threshold makes the phase at
`x + hoursToNext + ε` the opposite of the current phase - the light never
ends, while `nextChangeEvent` still announces a switch to dark. -/
theorem nextTransition_opposite_phase_cex :
    ¬ ∃ δ : ℚ, 0 < δ ∧ ∀ ε : ℚ, 0 < ε → ε < δ →
      isLightAtAbsoluteHours 24 0 (0 + (nextChangeEvent 24 0 0).hoursToNext + ε) =
        !isNowLight 24 0 0 := by
  have hcyc : cycleLength 24 0 = 24 :=
    (cycleLength_of_pos (by norm_num)).trans (by norm_num)
  have hcic : currentInCycle 24 0 0 = 0 := by
    unfold currentInCycle
    rw [hcyc]
    exact jsMod2_eq_self (by norm_num) le_rfl (by norm_num)
  have hlight : isNowLight 24 0 0 = true :=
    isNowLight_true_iff.mpr (by rw [hcic]; norm_num)
  have hne : (nextChangeEvent 24 0 0).hoursToNext = 24 := by
    rw [nextChangeEvent_light (by rw [hcic]; norm_num), hcic]
    norm_num
  rintro ⟨δ, hδ, hall⟩
  have hεpos : 0 < min δ 1 / 2 := div_pos (lt_min hδ one_pos) two_pos
  have hεδ : min δ 1 / 2 < δ := by
    have h1 : min δ 1 ≤ δ := min_le_left δ 1
    linarith
  have hε24 : min δ 1 / 2 < 24 := by
    have h1 : min δ 1 ≤ 1 := min_le_right δ 1
    linarith
  have hall2 := hall (min δ 1 / 2) hεpos hεδ
  have harg : (0 : ℚ) + 24 + min δ 1 / 2 = min δ 1 / 2 + 24 * ((1 : ℤ) : ℚ) := by
    push_cast
    ring
  have hval : jsMod2 ((0 : ℚ) + 24 + min δ 1 / 2) 24 = min δ 1 / 2 := by
    rw [harg, jsMod2_add_int_mul _ 24 1 (by norm_num)]
    exact jsMod2_eq_self (by norm_num) hεpos.le hε24
  have htrue : isLightAtAbsoluteHours 24 0 (0 + 24 + min δ 1 / 2) = true := by
    simp only [isLightAtAbsoluteHours, hcyc, hval, decide_eq_true_eq]
    linarith
  rw [hne, htrue, hlight] at hall2
  simp at hall2

/-- Claim C8: grid shape and duration clamping.  For every raw
`durationDays` input - a number or a non-numeric entry (`none`) - the
calendar has exactly `min 9999 (max 1 durationDays)` rows (`0` counting as
the non-numeric coercion `Number(...) || 0`), each of exactly 24 cells; in
particular `0` yields one row, a non-numeric entry yields one row, and an
out-of-range ten-million-day request yields 9999 rows. -/
theorem calendar_shape (hoursLight hoursDark fo : ℚ) (durationDays : Option ℤ) :
    (calendar hoursLight hoursDark fo durationDays).length =
      (min 9999 (max 1 (durationDays.getD 0))).toNat ∧
    (∀ row ∈ calendar hoursLight hoursDark fo durationDays, row.length = 24) ∧
    (calendar hoursLight hoursDark fo (some 0)).length = 1 ∧
    (calendar hoursLight hoursDark fo none).length = 1 ∧
    (calendar hoursLight hoursDark fo (some 10000000)).length = 9999 := by
  have hlen : ∀ dd : Option ℤ, (calendar hoursLight hoursDark fo dd).length =
      (max 1 (min 9999 (dd.getD 0))).toNat := by
    intro dd
    show ((List.range (max 1 (min 9999 (dd.getD 0))).toNat).map _).length = _
    rw [List.length_map, List.length_range]
  refine ⟨?_, ?_, ?_, ?_, ?_⟩
  · rw [hlen]
    rcases durationDays with _ | n
    · rfl
    · show (max 1 (min 9999 n)).toNat = (min 9999 (max 1 n)).toNat
      omega
  · intro row hrow
    obtain ⟨d, _, rfl⟩ := List.mem_map.mp hrow
    rw [List.length_map, List.length_range]
  · rw [hlen]
    rfl
  · rw [hlen]
    rfl
  · rw [hlen]
    rfl

/-- Claim C10: the all-zero configuration is accepted and renders all dark.
With `hoursLight = hoursDark = 0` the numeric validation passes (each field
need only be finite and non-negative), the epsilon guard supplies the cycle
length, and every phase query - the live indicator and every calendar cell
of any grid - reports dark. -/
theorem both_zero_all_dark (startDateOk : Bool) (durationDays x fo : ℚ)
    (hok : startDateOk = true) (hdd : 1 ≤ durationDays) :
    validateInputs startDateOk 0 0 durationDays = true ∧
    cycleLength 0 0 = 0.0000001 ∧
    isNowLight 0 0 x = false ∧
    isLightAtAbsoluteHours 0 0 x = false ∧
    (∀ dd : Option ℤ, ∀ row ∈ calendar 0 0 fo dd, ∀ b ∈ row, b = false) := by
  have hdark : ∀ y : ℚ, isLightAtAbsoluteHours 0 0 y = false := by
    intro y
    have h0 := jsMod2_nonneg y (cycleLength 0 0) (cycleLength_pos 0 0)
    simp only [isLightAtAbsoluteHours, decide_eq_false_iff_not, not_lt]
    exact h0
  refine ⟨?_, ?_, ?_, hdark x, ?_⟩
  · simp [validateInputs, hok, hdd]
  · norm_num [cycleLength]
  · have h0 := jsMod2_nonneg x (cycleLength 0 0) (cycleLength_pos 0 0)
    simp only [isNowLight, currentInCycle, decide_eq_false_iff_not, not_lt]
    exact h0
  · intro dd row hrow b hb
    simp only [calendar, List.mem_map] at hrow
    obtain ⟨d, _, rfl⟩ := hrow
    obtain ⟨h, _, hbe⟩ := List.mem_map.mp hb
    rw [← hbe]
    exact hdark _

/-- Witness for C10 at `startDateOk = true`, `durationDays = 60`, `x = 5`,
`fo = 0`. -/
theorem both_zero_all_dark_witness :
    validateInputs true 0 0 60 = true ∧
    cycleLength 0 0 = 0.0000001 ∧
    isNowLight 0 0 5 = false ∧
    isLightAtAbsoluteHours 0 0 5 = false ∧
    (∀ dd : Option ℤ, ∀ row ∈ calendar 0 0 0 dd, ∀ b ∈ row, b = false) :=
  both_zero_all_dark true 60 5 0 rfl (by norm_num)

/-- Claim C9: the two revisions' current-cell selection.  The first revision
indexes the highlighted cell by hours since the exact start instant
(`currentDayIndex24h`, `currentHourIndex`), the second by wall clock and
midnight-to-midnight day difference (`currentDayIndex24hV2`,
`currentHourIndexV2`).  They pick the same `(day, hour)` cell for every
`now` exactly when the start instant lies at local midnight (its time of
day, `jsMod2 startT 24`, is zero); otherwise some `now` separates them. -/
theorem revision_current_cell_iff_midnight (startT : ℚ) :
    (∀ now : ℚ,
        currentDayIndex24h (now - startT) = currentDayIndex24hV2 startT now ∧
        currentHourIndex (now - startT) = currentHourIndexV2 now) ↔
    jsMod2 startT 24 = 0 := by
  have h24 : (0 : ℚ) < 24 := by norm_num
  have hsub := jsMod2_sub startT 24 h24
  constructor
  · intro hall
    by_contra hs
    have hs0 : 0 < jsMod2 startT 24 :=
      lt_of_le_of_ne (jsMod2_nonneg startT 24 h24) (Ne.symm hs)
    have hs24 : jsMod2 startT 24 < 24 := jsMod2_lt startT 24 h24
    rcases le_or_lt 1 (jsMod2 startT 24) with hge | hlt
    · have h := (hall startT).2
      have h0 : currentHourIndex (startT - startT) = 0 := by
        rw [sub_self]
        unfold currentHourIndex
        rw [jsMod2_eq_self h24 le_rfl h24]
        exact Int.floor_zero
      have h1 : (1 : ℤ) ≤ currentHourIndexV2 startT := by
        unfold currentHourIndexV2 getHoursOf
        exact Int.le_floor.mpr (by exact_mod_cast hge)
      rw [h0] at h
      omega
    · have h := (hall (24 * ((⌊startT / 24⌋ : ℤ) : ℚ) + 1)).2
      have hdiff : 24 * ((⌊startT / 24⌋ : ℤ) : ℚ) + 1 - startT = 1 - jsMod2 startT 24 := by
        linarith
      have h0 : currentHourIndex (24 * ((⌊startT / 24⌋ : ℤ) : ℚ) + 1 - startT) = 0 := by
        rw [hdiff]
        unfold currentHourIndex
        rw [jsMod2_eq_self h24 (by linarith) (by linarith)]
        exact Int.floor_eq_zero_iff.mpr ⟨by linarith, by linarith⟩
      have h1 : currentHourIndexV2 (24 * ((⌊startT / 24⌋ : ℤ) : ℚ) + 1) = 1 := by
        unfold currentHourIndexV2 getHoursOf
        have harg : 24 * ((⌊startT / 24⌋ : ℤ) : ℚ) + 1 =
            1 + 24 * ((⌊startT / 24⌋ : ℤ) : ℚ) := by ring
        rw [harg, jsMod2_add_int_mul 1 24 _ h24,
          jsMod2_eq_self h24 (by norm_num) (by norm_num)]
        exact Int.floor_one
      rw [h0, h1] at h
      omega
  · intro hs
    obtain ⟨m, hm⟩ : ∃ m : ℤ, startT = 24 * (m : ℚ) := by
      refine ⟨⌊startT / 24⌋, ?_⟩
      rw [hs] at hsub
      linarith
    have hfloorStart : ⌊startT / 24⌋ = m := by
      rw [hm, show (24 * (m : ℚ)) / 24 = (m : ℚ) by ring]
      exact Int.floor_intCast m
    intro now
    constructor
    · unfold currentDayIndex24h currentDayIndex24hV2 midnightOf
      have hL : (now - startT) / 24 = now / 24 + ((-m : ℤ) : ℚ) := by
        rw [hm]
        push_cast
        ring
      have hR : (24 * ((⌊now / 24⌋ : ℤ) : ℚ) - 24 * ((⌊startT / 24⌋ : ℤ) : ℚ)) / 24 =
          ((⌊now / 24⌋ - m : ℤ) : ℚ) := by
        rw [hfloorStart]
        push_cast
        ring
      rw [hL, Int.floor_add_int, hR, Int.floor_intCast]
      omega
    · unfold currentHourIndex currentHourIndexV2 getHoursOf
      have harg : now - startT = now + 24 * ((-m : ℤ) : ℚ) := by
        rw [hm]
        push_cast
        ring
      rw [harg, jsMod2_add_int_mul now 24 (-m) h24]

lemma calendar_def (hoursLight hoursDark fo : ℚ) (durationDays : Option ℤ) :
    calendar hoursLight hoursDark fo durationDays =
      (List.range (max 1 (min 9999 (durationDays.getD 0))).toNat).map fun d : ℕ =>
        (List.range 24).map fun h : ℕ =>
          isLightAtAbsoluteHours hoursLight hoursDark
            ((d : ℚ) * 24 + (h : ℚ) - fo) := rfl

/-- Counterexample to C1 as stated: with `hoursLight = 13`, `hoursDark = 14`
and a start instant at 06:00 (`fractionalStartOffset = 6`), at
`now = startInstant` (`hoursSinceStartNow = 0`, inside the one-day grid) the
live indicator reports light while the calendar cell at the day and hour
indices of now - cell `(0, 0)` - is dark: the grid is aligned to midnight
but the indicator and the cell indices are anchored at the start instant. -/
theorem grid_indicator_disagreement_cex :
    isNowLight 13 14 0 = true ∧
    currentDayIndex24h 0 = 0 ∧
    currentHourIndex 0 = 0 ∧
    ((calendar 13 14 6 (some 1)).getD (currentDayIndex24h 0).toNat []).getD
      (currentHourIndex 0).toNat true = false := by
  have hcyc : cycleLength 13 14 = 27 :=
    (cycleLength_of_pos (by norm_num)).trans (by norm_num)
  have hday : currentDayIndex24h 0 = 0 := by
    unfold currentDayIndex24h
    rw [zero_div]
    exact Int.floor_zero
  have hhour : currentHourIndex 0 = 0 := by
    unfold currentHourIndex
    rw [jsMod2_eq_self (by norm_num) le_rfl (by norm_num)]
    exact Int.floor_zero
  refine ⟨?_, hday, hhour, ?_⟩
  · have h0 : currentInCycle 13 14 0 = 0 := by
      unfold currentInCycle
      rw [hcyc]
      exact jsMod2_eq_self (by norm_num) le_rfl (by norm_num)
    rw [isNowLight_true_iff.mpr (by rw [h0]; norm_num)]
  · rw [hday, hhour, calendar_def]
    simp only [Option.getD_some, Int.toNat_zero]
    rw [getD_range_map _ (by norm_num) , getD_range_map _ (by norm_num)]
    have harg : ((0 : ℕ) : ℚ) * 24 + ((0 : ℕ) : ℚ) - 6 = -6 := by norm_num
    rw [harg]
    have hval : jsMod2 (-6) 27 = 21 :=
      jsMod2_eval (-1) (by norm_num) (by norm_num) (by norm_num) (by norm_num)
    simp only [isLightAtAbsoluteHours, hcyc, hval, decide_eq_false_iff_not, not_lt]
    norm_num

/-- Claim C1, amended: the grid cell and the live indicator agree for every
valid configuration whenever the start instant is at local midnight
(`fractionalStartOffset = 0`) and now is a whole number of hours `n` since
the start, inside the materialized range.  (The un-amended claim also covers
start instants with a nonzero time of day and instants mid-hour; see the
counterexample for a nonzero start time of day, where the two disagree.) -/
theorem grid_indicator_agreement (hoursLight hoursDark : ℚ) (dd n : ℤ)
    (hL0 : 0 ≤ hoursLight) (hD0 : 0 ≤ hoursDark) (hn0 : 0 ≤ n)
    (hn : n < 24 * max 1 (min 9999 dd)) :
    ((calendar hoursLight hoursDark 0 (some dd)).getD
        (currentDayIndex24h (n : ℚ)).toNat []).getD
      (currentHourIndex (n : ℚ)).toNat false =
    isNowLight hoursLight hoursDark (n : ℚ) := by
  have hday : currentDayIndex24h (n : ℚ) = n / 24 := floor_intCast_div24 n
  have hhour : currentHourIndex (n : ℚ) = n % 24 := by
    unfold currentHourIndex
    rw [jsMod2_intCast24 n]
    exact Int.floor_intCast _
  have hdlt : (n / 24).toNat < (max 1 (min 9999 dd)).toNat := by omega
  have hhlt : (n % 24).toNat < 24 := by omega
  rw [hday, hhour, calendar_def]
  simp only [Option.getD_some]
  rw [getD_range_map _ hdlt, getD_range_map _ hhlt]
  have e4 : ((n / 24).toNat : ℤ) * 24 + ((n % 24).toNat : ℤ) = n := by omega
  have harg : ((n / 24).toNat : ℚ) * 24 + ((n % 24).toNat : ℚ) - 0 = (n : ℚ) := by
    have hq := congrArg (fun z : ℤ => (z : ℚ)) e4
    push_cast at hq
    linarith
  rw [harg]
  rfl

/-- Witness for the amended C1 at `hoursLight = 13`, `hoursDark = 14`, a
two-day grid and `n = 30` hours after a midnight start. -/
theorem grid_indicator_agreement_witness :
    ((calendar 13 14 0 (some 2)).getD (currentDayIndex24h ((30 : ℤ) : ℚ)).toNat []).getD
      (currentHourIndex ((30 : ℤ) : ℚ)).toNat false =
    isNowLight 13 14 ((30 : ℤ) : ℚ) :=
  grid_indicator_agreement 13 14 2 30 (by norm_num) (by norm_num) (by norm_num)
    (by norm_num)
